import Mathlib

/-!
Verification of the `bourbaki.application` typed-I/O and CLI argument-resolution
engine against its natural-language specification.

The Lean definitions below are shallow embeddings of the Python source:
* `cli/main.py` — `SubCommandFunc.prepare_args_kwargs`, `compute_parse_order`, `get_env`;
* `typed_io/main.py` — `TypedIO.parser_for_source`;
* `typed_io/cli/cli_nargs_.py` and `typed_io/cli/cli_parse.py` — CLI arity resolution
  and the mapping/union CLI parsers;
* `typed_io/config/config_decode.py`, `config_encode.py`, `inflation.py` — config
  decoding/encoding of atomic and composite types and the declarative-construction
  ("inflation") protocol;
* `typed_io/base_parsers.py` — enum/flag and range string parsers.

Python dicts whose iteration order matters are modelled as association lists;
fallible Python code is modelled with `Except`.  A few helpers live in modules
that are not part of the source tree (`cli/helpers.py`, and the
`bourbaki.introspection.generic_dispatch_helpers` wrappers); those are modelled
from the specification and carry a `Modelled from the spec:` doc comment.
-/

namespace BourbakiApp

/-- JSON-like structured configuration values (the "structured document" universe the
config loader hands to the engine: str/int/bool/null/list/mapping), extended with a
`set` constructor so that unordered Python containers can be distinguished from
sequences where the decoders' typechecks distinguish them. -/
inductive ConfigValue where
  | str (s : String)
  | int (n : Int)
  | bool (b : Bool)
  | null
  | list (xs : List ConfigValue)
  | map (kvs : List (ConfigValue × ConfigValue))
  | set (xs : List ConfigValue)

/-! ## Argument source resolution and merge protocol (`cli/main.py`) -/

/-- `ArgSource` enum from `typed_io/main.py` plus the internal `_DEFAULTS` pseudo-source
defined in `cli/main.py`. -/
inductive ArgSource where
  | CLI
  | ENV
  | CONFIG
  | DEFAULTS
deriving DecidableEq

/-- A value sitting in the parsed-CLI namespace: either the `missing` sentinel
(`typed_io.utils.Missing`) that argparse leaves for unsupplied arguments, or an
actual raw value. -/
inductive CLIVal where
  | missingSentinel
  | val (c : ConfigValue)

/-- The per-parameter decode functions exposed by a `TypedIO` instance
(`typed_io/main.py`): `cli_parser`, `config_decoder`, `env_parser`.  They are kept
abstract (arbitrary functions) so that theorems about the merge protocol hold for
every choice of per-type parsers. -/
structure ParamFuncs where
  cliParse : ConfigValue → ConfigValue
  configDecode : ConfigValue → ConfigValue
  envParse : ConfigValue → ConfigValue

/-- `TypedIO.parser_for_source` (typed_io/main.py lines 233-240): CLI values use the
CLI parser, config values the config decoder, environment values the env parser, and
anything else (the defaults pseudo-source) falls through to `identity`. -/
def parserForSource (t : ParamFuncs) : ArgSource → (ConfigValue → ConfigValue)
  | .CLI => t.cliParse
  | .CONFIG => t.configDecode
  | .ENV => t.envParse
  | .DEFAULTS => id

/-- The fields of `SubCommandFunc` that `prepare_args_kwargs` reads. -/
structure SubCmd where
  lookupOrder : List ArgSource
  parseOrder : List String
  parseConfigAsCli : List String
  defaults : List (String × ConfigValue)
  tio : String → ParamFuncs

/-- Modelled from the spec: `NamedChainMap.get_with_name` lives in `cli/helpers.py`,
which is not in the source tree.  Per the spec (§4.5 step 3): "walk sources in
precedence order, take the first source that has *any* value for this parameter name
(presence, not truthiness)".  Returns the tagged source together with the stored value. -/
def getWithName (sources : List (ArgSource × List (String × ConfigValue)))
    (name : String) : Option (ArgSource × ConfigValue) :=
  sources.findSome? fun sns => (List.lookup name sns.2).map fun v => (sns.1, v)

/-- `lookup_order = (CLI, *self.lookup_order, DEFAULTS) if CLI not in self.lookup_order
else (*self.lookup_order, DEFAULTS)` (cli/main.py, `prepare_args_kwargs`). -/
def effectiveLookupOrder (l : List ArgSource) : List ArgSource :=
  if l.contains .CLI then l ++ [.DEFAULTS] else .CLI :: (l ++ [.DEFAULTS])

/-- `cli = {name: value for name, value in cli.items() if value is not missing}`:
drop entries holding the `missing` sentinel from the argparse namespace. -/
def filteredCLI (ns : List (String × CLIVal)) : List (String × ConfigValue) :=
  ns.filterMap fun nv =>
    match nv.2 with
    | .missingSentinel => none
    | .val c => some (nv.1, c)

/-- The `sources` list built in `prepare_args_kwargs`: walk the effective lookup
order, keeping `(source, ns)` only when `ns` is truthy (`if ns:`), i.e. not `None`
and not an empty mapping. -/
def buildSources (c : SubCmd) (cli : List (String × ConfigValue))
    (env conf : Option (List (String × ConfigValue))) :
    List (ArgSource × List (String × ConfigValue)) :=
  (effectiveLookupOrder c.lookupOrder).filterMap fun s =>
    let ns : Option (List (String × ConfigValue)) :=
      match s with
      | .CLI => some cli
      | .ENV => env
      | .CONFIG => conf
      | .DEFAULTS => some c.defaults
    match ns with
    | none => none
    | some m => if m.isEmpty then none else some (s, m)

/-- Parser selection in the resolution loop of `prepare_args_kwargs`:
`if source == CONFIG and name in self.parse_config_as_cli: parser = tio.cli_parser
else: parser = tio.parser_for_source(source)`. -/
def chooseParser (c : SubCmd) (name : String) (src : ArgSource) :
    ConfigValue → ConfigValue :=
  if src = .CONFIG ∧ name ∈ c.parseConfigAsCli then (c.tio name).cliParse
  else parserForSource (c.tio name) src

/-- `SubCommandFunc.prepare_args_kwargs` (cli/main.py lines 1529-1586), restricted to
the per-parameter value-resolution pipeline: gather sources, resolve every name in
parse order via the chain map, aggregate the names missing from every source into a
single `ValueError` listing all of them, and otherwise decode each resolved value with
the parser for the source it came from.  (`conf` and `env` stand for the results of
`self.get_conf(config)` / `self.get_env()`; the final positional/keyword assembly is
not needed by any claim and is omitted.) -/
def prepareArgsKwargs (c : SubCmd) (cliNs : List (String × CLIVal))
    (conf env : Option (List (String × ConfigValue))) :
    Except (List String) (List (String × ArgSource × ConfigValue)) :=
  let cli := filteredCLI cliNs
  let sources := buildSources c cli env conf
  let step := c.parseOrder.map fun name => (name, getWithName sources name)
  let missingNames := (step.filter fun p => p.2.isNone).map Prod.fst
  if missingNames.isEmpty then
    .ok (step.filterMap fun p =>
      p.2.map fun sv => (p.1, sv.1, chooseParser c p.1 sv.1 sv.2))
  else
    .error missingNames

/-- `SubCommandFunc.execute`: the target function is invoked only on the resolved
arguments, after `prepare_args_kwargs` returns; an aggregated missing-arguments error
propagates before any invocation. -/
def executeModel (c : SubCmd)
    (f : List (String × ArgSource × ConfigValue) → ConfigValue)
    (cliNs : List (String × CLIVal))
    (conf env : Option (List (String × ConfigValue))) :
    Except (List String) ConfigValue :=
  (prepareArgsKwargs c cliNs conf env).map f

/-- The claim's (and spec §4.5 step 3's) description of source selection, written
independently of the implementation: find the first source, in precedence order, that
has an entry for the name at all, and return that source's stored value. -/
def specSelect (sources : List (ArgSource × List (String × ConfigValue)))
    (name : String) : Option (ArgSource × ConfigValue) :=
  match sources.find? fun sns => (List.lookup name sns.2).isSome with
  | none => none
  | some sns => (List.lookup name sns.2).map fun v => (sns.1, v)

/-- The claim's description of per-source decoding: CLI values with the CLI parser,
config values with the config decoder unless the parameter is in
`parse_config_as_cli` (then the CLI parser), environment values with the environment
parser, defaults passed through unchanged. -/
def specDecodeFor (c : SubCmd) (name : String) (src : ArgSource)
    (v : ConfigValue) : ConfigValue :=
  match src with
  | .CLI => (c.tio name).cliParse v
  | .CONFIG =>
      if name ∈ c.parseConfigAsCli then (c.tio name).cliParse v
      else (c.tio name).configDecode v
  | .ENV => (c.tio name).envParse v
  | .DEFAULTS => v


/-! ## `compute_parse_order` (cli/main.py lines 1451-1469) -/

/-- An entry of a caller-specified parse order: a parameter name or the `Ellipsis`
wildcard. -/
inductive POEntry where
  | pname (s : String)
  | wildcard
deriving DecidableEq

/-- Modelled from the spec: `_validate_parse_order` lives in `cli/helpers.py`, which is
not in the source tree.  Per the spec the caller supplies "an explicit partial order
with a wildcard position for everything else"; validation of that shape is modelled as
returning the given order unchanged (the entries are strings or the wildcard by
construction of `POEntry`). -/
def validateParseOrder (l : List POEntry) : List POEntry := l

/-- `(n not in param_names)` for a parse-order entry: the `Ellipsis` wildcard is never
a member of a set of parameter-name strings. -/
def entryNotInParams (e : POEntry) (paramNames : List String) : Bool :=
  match e with
  | .wildcard => true
  | .pname s => !(paramNames.contains s)

/-- `SubCommandFunc.compute_parse_order`, translated clause by clause:

* `if parse_order is None: return list(param_names)`;
* `if any((n not in param_names) or (n is not Ellipsis) for n in parse_order): raise NameError(...)`
  — note the source really does combine the two tests with `or`;
* split at the wildcard into `head`/`middle`/`tail` and concatenate
  (`middle = param_names.difference(head).difference(tail)`, kept in the
  `param_names` order of this model). -/
def computeParseOrder (parseOrder : Option (List POEntry))
    (paramNames : List String) : Except String (List String) :=
  match parseOrder with
  | none => .ok paramNames
  | some po₀ =>
    let po := validateParseOrder po₀
    if po.any fun e => entryNotInParams e paramNames || !(e == POEntry.wildcard) then
      .error "NameError"
    else
      let (head, tail, middle) :=
        match po.findIdx? (· == POEntry.wildcard) with
        | none => (po, ([] : List POEntry), ([] : List String))
        | some i =>
          let head := po.take i
          let tail := po.drop (i + 1)
          (head, tail,
            paramNames.filter fun n =>
              !(head.contains (POEntry.pname n)) && !(tail.contains (POEntry.pname n)))
      let keep (l : List POEntry) : List String :=
        l.filterMap fun e =>
          match e with
          | .pname s => if paramNames.contains s then some s else none
          | .wildcard => none
      .ok (keep head ++ middle ++ keep tail)

/-! ## `SubCommandFunc.get_env` (cli/main.py lines 1502-1510) -/

/-- `get_env`, translated line by line:

```
if not self.parse_env: return None
env = {}
for arg_name, env_name in self.parse_env.items():
    if env_name in os.environ:
        env[arg_name] = os.environ[arg_name]
return env
```

The guard tests `env_name` for membership but the read subscripts `os.environ` with
`arg_name`; a missing key there is a Python `KeyError`, modelled as `.error` carrying
the offending key. -/
def getEnv (parseEnv : List (String × String)) (environ : List (String × String)) :
    Except String (Option (List (String × String))) :=
  if parseEnv.isEmpty then .ok none
  else do
    let env ← List.foldlM (fun acc an =>
      if (List.lookup an.2 environ).isSome then
        match List.lookup an.1 environ with
        | some v => Except.ok (acc ++ [(an.1, v)])
        | none => Except.error an.1
      else Except.ok acc) [] parseEnv
    .ok (some env)


/-! ## CLI arity resolution (`typed_io/cli/cli_nargs_.py`) -/

/-- The `nargs` field of a `CLINargsAction`: Python `None` (a single token), a literal
int, or one of the argparse constants `ZERO_OR_MORE`/`ONE_OR_MORE`/`OPTIONAL`. -/
inductive NargsV where
  | nnone
  | num (n : Nat)
  | star
  | plus
  | opt
deriving DecidableEq

/-- `CLINargsAction` record (cli_nargs_.py lines 25-28): an `nargs` spec plus an
optional parser action; the only action the module ever uses is `"append"`, modelled
as `append = true`. -/
structure NargsAction where
  nargs : NargsV
  append : Bool
deriving DecidableEq

/-- Exceptions raised by the CLI arity/parser layer.  `undefinedForType`,
`nestedCollection`, `nestedTuple` and `ambiguousUnion` embed `CLIIOUndefinedForType`
and its three subclasses from `typed_io/exceptions.py`; `addActionMismatch` is the
`ValueError` of `CLINargsAction.__add__`; `nameErr` models a Python `NameError` from
evaluating an undefined identifier. -/
inductive CLIErr where
  | undefinedForType
  | nestedCollection
  | nestedTuple
  | ambiguousUnion
  | addActionMismatch
  | nameErr (s : String)
deriving DecidableEq

/-- `CLINargsAction.normalized_nargs` (cli_nargs_.py lines 30-34): `ONE_OR_MORE`
normalizes to `ZERO_OR_MORE`; every other `nargs` value — including `OPTIONAL` — is
returned unchanged. -/
def normalizedNargs (a : NargsAction) : NargsV :=
  if a.nargs = .plus then .star else a.nargs

/-- `CLINargsAction.is_nested`: `self.action == APPEND`. -/
def isNested (a : NargsAction) : Bool := a.append

/-- `CLINargsAction.is_variable_length_collection`:
`self.action is not None or (self.nargs is not None and not isinstance(self.nargs, int))`. -/
def isVariableLengthCollection (a : NargsAction) : Bool :=
  a.append ||
    (match a.nargs with
     | .nnone => false
     | .num _ => false
     | _ => true)

/-- `CLINargsAction.is_variable_length`:
`self.is_variable_length_collection or self.nargs == OPTIONAL`. -/
def isVariableLength (a : NargsAction) : Bool :=
  isVariableLengthCollection a || a.nargs = .opt

/-- Whether an `nargs` value is one of the argparse string constants
(`isinstance(self.nargs, str)` in `__add__`). -/
def isStrNargs : NargsV → Bool
  | .star => true
  | .plus => true
  | .opt => true
  | _ => false

/-- `1 if nargs is None else nargs` — only reached in `__add__`'s final branch, where
both operands' `nargs` are `None` or ints. -/
def natOfNargs : NargsV → Nat
  | .nnone => 1
  | .num n => n
  | _ => 1

/-- `CLINargsAction.__add__` (cli_nargs_.py lines 48-68): actions must agree
(`ValueError` otherwise); the operands are swapped so that a string-constant `nargs`,
if any, ends up on the left; then `ONE_OR_MORE` absorbs, `ZERO_OR_MORE`/`OPTIONAL`
yield `ZERO_OR_MORE` or `ONE_OR_MORE` depending on the other side, and two
`None`/int operands add numerically (with `None` counting as 1). -/
def addNargs (x y : NargsAction) : Except CLIErr NargsAction :=
  if x.append ≠ y.append then .error .addActionMismatch
  else
    let sw := if isStrNargs x.nargs then (x, y) else (y, x)
    let self := sw.1
    let other := sw.2
    if self.nargs = .plus then .ok ⟨.plus, self.append⟩
    else if self.nargs = .star ∨ self.nargs = .opt then
      .ok ⟨if other.nargs = .star ∨ other.nargs = .opt then .star else .plus, self.append⟩
    else .ok ⟨.num (natOfNargs self.nargs + natOfNargs other.nargs), self.append⟩

/-- `sum(all_nargs)` in `check_tuple_nargs`: Python's `sum` starts from the int `0`,
so the first addition is `a₀.__radd__(0) = a₀ + to_cli_nargs_action(0)`, i.e.
`addNargs a₀ ⟨.num 0, false⟩`, and the remaining elements fold in with `__add__`. -/
def sumNargs : List NargsAction → Except CLIErr NargsAction
  | [] => .ok ⟨.num 0, false⟩
  | a :: rest => do
    let first ← addNargs a ⟨.num 0, false⟩
    rest.foldlM addNargs first

/-! The universe of type annotations the CLI arity resolver is exercised on in this
development: single-token atomic types, non-string collections (`List`/`Set`),
mappings, fixed tuples, variadic tuples (`Tuple[T, ...]`), unions and `NoneType`.
Tuple fields and union branches are held in the companion list type `TyList`
(mutual rather than nested so that the resolver below is structurally recursive). -/

mutual

inductive Ty where
  | string
  | int
  | bool
  | date
  | listT (t : Ty)
  | setT (t : Ty)
  | mapT (k v : Ty)
  | tupleT (ts : TyList)
  | tupleVar (t : Ty)
  | unionT (ts : TyList)
  | noneT

inductive TyList where
  | nil
  | cons (hd : Ty) (tl : TyList)

end

/-- Build a `TyList` from a `List Ty`. -/
def TyList.ofList : List Ty → TyList
  | [] => .nil
  | t :: ts => .cons t (TyList.ofList ts)

/-- `t not in (NoneType, None)` from `union_nargs`: whether a union branch is the
null type. -/
def Ty.isNoneT : Ty → Bool
  | .noneT => true
  | _ => false

/-- `collection_nargs` (cli_nargs_.py lines 107-114), given the already-resolved
`nargs` of the element type: reject element types carrying an `append` action
(`CLIIOUndefinedForNestedCollectionType`); a single-token element gives
`ZERO_OR_MORE`; otherwise keep the element's `nargs` with action `"append"`. -/
def collectionOf (vn : NargsAction) : Except CLIErr NargsAction :=
  if vn.append then .error .nestedCollection
  else if vn.nargs = .nnone then .ok ⟨.star, false⟩
  else .ok ⟨vn.nargs, true⟩

/-- Membership in the tolerated exception tuple `(UnknownSignature,
CLIIOUndefinedForType)` of `union_nargs`'s `maybe_map` call.
`CLIIOUndefinedForNestedCollectionType`, `CLIIOUndefinedForNestedTupleType` and
`CLIAmbiguousUnionType` are subclasses of `CLIIOUndefinedForType`
(typed_io/exceptions.py), hence tolerated; the `__add__` `ValueError` and a
`NameError` are not. -/
def toleratedByMaybeMap : CLIErr → Bool
  | .undefinedForType => true
  | .nestedCollection => true
  | .nestedTuple => true
  | .ambiguousUnion => true
  | .addActionMismatch => false
  | .nameErr _ => false

/-- The tail of `check_tuple_nargs` (cli_nargs_.py lines 156-173, default
`allow_tail_collection=True`), applied to the already-resolved field arities
`all_nargs`: reject if the last field is nested or any non-last field is
variable-length (`CLIIOUndefinedForNestedTupleType`), then sum the field arities. -/
def checkTupleNargsTotal (all : List NargsAction) : Except CLIErr NargsAction :=
  match all with
  | [] => .ok ⟨.star, false⟩
  | a :: rest =>
    let allN := a :: rest
    let head := allN.dropLast
    if isNested (allN.getLast (by simp)) || head.any isVariableLength then
      .error .nestedTuple
    else sumNargs allN

mutual

/-- `cli_nargs` (cli_nargs_.py): the type-level dispatch resolved over `Ty`.
Atomic registrations (`typing.Any`, `URL`, `ByteString`) give `CLINargsAction(None)`;
`NoneType` has no dedicated registration and also falls to the `typing.Any` base
case.  `Tuple[T, ...]` dispatches like `List[T]`
(`cli_nargs(typing.List[types[0]])` in `tuple_nargs`); a nonempty fixed tuple
resolves its fields and finishes with `check_tuple_nargs`.  The union case is
`union_nargs` (lines 142-153): collect branch arities with
`maybe_map(cli_nargs, types, (UnknownSignature, CLIIOUndefinedForType))` after
dropping `NoneType` branches, raise `CLIIOUndefinedForType` if nothing survived,
raise `CLIAmbiguousUnionType` if the surviving branches disagree on the parser
action or on `normalized_nargs`, and otherwise return the first collected arity. -/
def cliNargs : Ty → Except CLIErr NargsAction
  | .string => .ok ⟨.nnone, false⟩
  | .int => .ok ⟨.nnone, false⟩
  | .bool => .ok ⟨.nnone, false⟩
  | .date => .ok ⟨.nnone, false⟩
  | .noneT => .ok ⟨.nnone, false⟩
  | .listT t => do collectionOf (← cliNargs t)
  | .setT t => do collectionOf (← cliNargs t)
  | .mapT k v => do
    let kn ← cliNargs k
    let vn ← cliNargs v
    -- `mapping_nargs` (lines 118-125); the stray debug `print(key_nargs, val_nargs)`
    -- is an I/O side effect with no bearing on the result
    if kn.nargs ≠ .nnone ∨ vn.nargs ≠ .nnone then .error .nestedCollection
    else .ok ⟨.star, false⟩
  | .tupleT .nil => .ok ⟨.star, false⟩
  | .tupleT (.cons t ts) => do
    let all ← mapCliNargs (.cons t ts)
    checkTupleNargsTotal all
  | .tupleVar t => do collectionOf (← cliNargs t)
  | .unionT ts => do
    let all ← maybeMapUnion ts
    match all with
    | [] => .error .undefinedForType
    | a :: rest =>
      let allN := a :: rest
      if ((allN.map fun x => x.append).dedup).length > 1 then .error .ambiguousUnion
      else if ((allN.map normalizedNargs).dedup).length > 1 then .error .ambiguousUnion
      else .ok a

/-- `tuple(cli_nargs(t) for t in types)`: resolve each field's arity, propagating
any exception. -/
def mapCliNargs : TyList → Except CLIErr (List NargsAction)
  | .nil => .ok []
  | .cons t ts => do
    let a ← cliNargs t
    let rest ← mapCliNargs ts
    .ok (a :: rest)

/-- The `NoneType` filter of `union_nargs` fused with
`maybe_map(cli_nargs, types, (UnknownSignature, CLIIOUndefinedForType))`
(typed_io/utils.py lines 202-211): null branches are dropped, branches whose
resolution raises a tolerated exception are skipped, any other exception
propagates, and the surviving arities are returned in branch order. -/
def maybeMapUnion : TyList → Except CLIErr (List NargsAction)
  | .nil => .ok []
  | .cons t ts =>
    if t.isNoneT then maybeMapUnion ts
    else
      match cliNargs t with
      | .ok a => (maybeMapUnion ts).map fun rest => a :: rest
      | .error e =>
        if toleratedByMaybeMap e then maybeMapUnion ts else .error e

end

/-! ## Mapping CLI parser (`typed_io/cli/cli_parse.py`) -/

/-- `cli_split_keyval(s) = s.split(KEY_VAL_JOIN_CHAR, maxsplit=1)` with
`KEY_VAL_JOIN_CHAR = "="` (typed_io/utils.py line 26): split the token at the first
`=` only. -/
def cliSplitKeyval (s : String) : List String :=
  match s.data.findIdx? (· == '=') with
  | none => [s]
  | some i => [⟨s.data.take i⟩, ⟨s.data.drop (i + 1)⟩]

/-- Models the membership test `cli_nargs(key_type) is not None` in
`MappingCLIParser.__init__` (cli_parse.py lines 279-282): `cli_nargs` is a
`GenericTypeLevelCLINargsSingleDispatch`, whose `__call__` always wraps its result in
a `CLINargsAction` record (cli_nargs_.py lines 84-87), so the comparison against
Python `None` is true for every type. -/
def nargsActionIsNotNone (_ : NargsAction) : Bool := true

/-- `MappingCLIParser.__init__` (cli_parse.py lines 274-292), up to the guard:

```
if (cli_nargs(key_type) is not None) or (cli_nargs(val_type) is not None):
    raise CLINestedCollectionsNotAllowed((coll_type, key_type, val_type))
```

Since both operands of `or` are `CLINargsAction` records the condition always holds,
and the raise statement names `CLINestedCollectionsNotAllowed`, which is neither
defined nor imported in cli_parse.py — evaluating it raises `NameError`. -/
def mappingCLIParserInit (k v : Ty) : Except CLIErr Unit := do
  let kn ← cliNargs k
  let vn ← cliNargs v
  if nargsActionIsNotNone kn || nargsActionIsNotNone vn then
    .error (.nameErr "CLINestedCollectionsNotAllowed")
  else .ok ()

/-! ## Config exceptions (`typed_io/exceptions.py`) -/

/-- Exceptions of the config decoding layer.  `configUndef` embeds
`ConfigIOUndefinedForType` (and its subclass `ConfigIOUndefinedForKeyType`);
`unknownSig` is `bourbaki.introspection`'s `UnknownSignature`; `typeErr`/`valueErr`
are plain `TypeError`/`ValueError`; `allFailed` and `raisedDisallowed` are the union
aggregates `AllFailed` / `RaisedDisallowedExceptions` (exceptions.py lines 240-248). -/
inductive CExc where
  | configUndef
  | unknownSig
  | typeErr (msg : String)
  | valueErr (msg : String)
  | allFailed (es : List CExc)
  | raisedDisallowed (es : List CExc)

/-! ## Union config decoding (`typed_io/config/config_decode.py` lines 398-404) -/

/-- `UnionConfigDecoder.tolerate_errors = (ConfigIOUndefinedForType, UnknownSignature)`:
which exceptions a failing union branch may raise without aborting resolution. -/
def configDecodeTolerated : CExc → Bool
  | .configUndef => true
  | .unknownSig => true
  | _ => false

/-- Modelled from the spec: the driver loop of `UnionWrapper.__call__` lives in
`bourbaki.introspection.generic_dispatch_helpers`, outside this repository's source
tree.  Per the spec (§4.3): "attempt each branch in declared order, succeeding on
the first branch whose parse succeeds and tolerating only specific 'this type
doesn't support this concern' exceptions — all failing is reported as 'all branches
failed', and an exception that is not one of the tolerated kinds aborts immediately
as 'disallowed exception raised during union resolution'".  `acc` carries the
tolerated errors of the branches already attempted, in branch order. -/
def unionAttempt (tol : CExc → Bool)
    (branches : List (ConfigValue → Except CExc ConfigValue))
    (v : ConfigValue) (acc : List CExc) : Except CExc ConfigValue :=
  match branches with
  | [] => .error (.allFailed acc.reverse)
  | b :: bs =>
    match b v with
    | .ok x => .ok x
    | .error e =>
      if tol e then unionAttempt tol bs v (e :: acc)
      else .error (.raisedDisallowed [e])

/-- `UnionConfigDecoder` (config_decode.py lines 398-404): the union driver
instantiated with the config decoder's tolerated exception classes and the
`AllFailed` / `RaisedDisallowedExceptions` aggregates from `typed_io/exceptions.py`. -/
def unionConfigDecode (branches : List (ConfigValue → Except CExc ConfigValue))
    (v : ConfigValue) : Except CExc ConfigValue :=
  unionAttempt configDecodeTolerated branches v []

/-! ## Inflation (`typed_io/config/inflation.py`) -/

/-- `INFLATABLE_CONFIG_KEYS = frozenset([CLASSPATH_KEY, ARGS_KEY, KWARGS_KEY,
CONSTRUCTOR_KEY])` (inflation.py lines 29-35). -/
def INFLATABLE_CONFIG_KEYS : List String :=
  ["__classpath__", "__args__", "__kwargs__", "__constructor__"]

/-- Whether a mapping entry's key equals a given string (dict keys may be arbitrary
config values; only string keys can match the reserved key names). -/
def keyIs (k : String) (kv : ConfigValue × ConfigValue) : Bool :=
  match kv.1 with
  | .str s => s == k
  | _ => false

/-- `_is_inflatable_config(obj)` (inflation.py lines 59-64):
`isinstance(obj, Mapping) and (CLASSPATH_KEY in obj or CONSTRUCTOR_KEY in obj)
and INFLATABLE_CONFIG_KEYS.issuperset(obj.keys())`. -/
def isInflatableConfig (c : ConfigValue) : Bool :=
  match c with
  | .map kvs =>
    (kvs.any (keyIs "__classpath__") || kvs.any (keyIs "__constructor__")) &&
      kvs.all fun kv =>
        match kv.1 with
        | .str s => INFLATABLE_CONFIG_KEYS.contains s
        | _ => false
  | _ => false

/-- Result of `inflate_config`: either declarative construction was attempted on the
mapping (`instance_from(**conf, target_type=...)` — the dynamic import/construction
itself is an external effect and not needed by the claims), or the value was
returned unchanged. -/
inductive InflateResult where
  | inflated (c : ConfigValue)
  | unchanged (c : ConfigValue)

/-- `inflate_config(conf, target_type)` (inflation.py lines 67-70): attempt
construction exactly on values accepted by `_is_inflatable_config`, otherwise return
the value unchanged. -/
def inflate_config (c : ConfigValue) : InflateResult :=
  if isInflatableConfig c then .inflated c else .unchanged c

/-- The claim's inflatability condition, written from its own words: "a mapping
whose keys are all drawn from the reserved set". -/
def claimInflatableCond (c : ConfigValue) : Bool :=
  match c with
  | .map kvs =>
    kvs.all fun kv =>
      match kv.1 with
      | .str s => INFLATABLE_CONFIG_KEYS.contains s
      | _ => false
  | _ => false

/-! ## Collection decoders' typechecks (`typed_io/config/config_decode.py` lines 296-334) -/

/-- `isinstance(conf, NonAnyStrCollection)` — `bourbaki.introspection.types`'s
virtual class of collections other than `str`/`bytes`: lists, sets and mappings
qualify; strings and scalars do not. -/
def isNonAnyStrCollection : ConfigValue → Bool
  | .list _ => true
  | .set _ => true
  | .map _ => true
  | _ => false

/-- `isinstance(conf, collections.abc.Sequence)` — note that a Python `str` *is* an
`abc.Sequence`, while sets and mappings are not. -/
def isAbcSequence : ConfigValue → Bool
  | .list _ => true
  | .str _ => true
  | _ => false

/-- `isinstance(conf, collections.abc.Mapping)`. -/
def isAbcMapping : ConfigValue → Bool
  | .map _ => true
  | _ => false

/-- `GenericConfigDecoderMixin.typecheck` (config_decode.py lines 308-318): raise
`TypeError` unless the raw config value is an instance of the class's
`legal_container_types`. -/
def typecheckWith (legal : ConfigValue → Bool) (c : ConfigValue) :
    Except CExc ConfigValue :=
  if legal c then .ok c else .error (.typeErr "Expected an instance of legal_container_types")

/-- `CollectionConfigDecoder.typecheck`: `legal_container_types = (NonAnyStrCollection,)`. -/
def collectionTypecheck : ConfigValue → Except CExc ConfigValue :=
  typecheckWith isNonAnyStrCollection

/-- `SequenceConfigDecoder.typecheck`: the subclass overrides
`legal_container_types = (collections.abc.Sequence,)`. -/
def sequenceTypecheck : ConfigValue → Except CExc ConfigValue :=
  typecheckWith isAbcSequence

/-- `TupleConfigDecoder.typecheck`: `legal_container_types = (NonAnyStrCollection,)`. -/
def tupleTypecheck : ConfigValue → Except CExc ConfigValue :=
  typecheckWith isNonAnyStrCollection

/-- Modelled from the spec: `CollectionWrapper.__call__`
(`bourbaki.introspection.generic_dispatch_helpers`, outside the source tree) —
"Sequence/Set: `constructor(map(elem_artifact, raw_sequence))`": decode each element
of the iterable with the element decoder and rebuild the collection.  Iterating a
Python `str` yields its characters as one-character strings, and iterating a mapping
yields its keys. -/
def collectionWrapperCall (elemDec : ConfigValue → Except CExc ConfigValue) :
    ConfigValue → Except CExc ConfigValue
  | .list xs => (xs.mapM elemDec).map .list
  | .set xs => (xs.mapM elemDec).map .list
  | .str s => ((s.data.map fun ch => ConfigValue.str ⟨[ch]⟩).mapM elemDec).map .list
  | .map kvs => ((kvs.map Prod.fst).mapM elemDec).map .list
  | _ => .error (.typeErr "not iterable")

/-- `GenericConfigDecoderMixin.__call__` for `CollectionConfigDecoder`
(config_decode.py lines 320-322 with lines 325-328): typecheck, then run the
collection wrapper. -/
def collectionDecoderCall (elemDec : ConfigValue → Except CExc ConfigValue)
    (c : ConfigValue) : Except CExc ConfigValue := do
  collectionWrapperCall elemDec (← collectionTypecheck c)

/-- `GenericConfigDecoderMixin.__call__` for `SequenceConfigDecoder`
(config_decode.py lines 320-322 with lines 331-334). -/
def sequenceDecoderCall (elemDec : ConfigValue → Except CExc ConfigValue)
    (c : ConfigValue) : Except CExc ConfigValue := do
  collectionWrapperCall elemDec (← sequenceTypecheck c)


/-! ## Decimal numeral formatting and parsing

Python's `str(int)` / `int(str)` builtins and its numeric-literal regexes are
external to the repository; they are modelled here over `List Char`: `natChars` /
`intChars` produce the standard decimal form, and `parseNatToken` /
`parseIntToken` consume a maximal `-?[0-9]+` prefix as the `re` patterns in
`base_parsers.py` do. -/

/-- The decimal digit character for `d ≤ 9`. -/
def digitChar (d : Nat) : Char := Char.ofNat (48 + d)

/-- Numeric value of a decimal digit character. -/
def digitVal (c : Char) : Nat := c.toNat - 48

/-- Decimal digits of a natural number, most significant first; `fuel`-structured so
the definition evaluates definitionally (call with `fuel > n`). -/
def natCharsAux : Nat → Nat → List Char
  | 0, _ => []
  | fuel + 1, n =>
    if n < 10 then [digitChar n]
    else natCharsAux fuel (n / 10) ++ [digitChar (n % 10)]

/-- Decimal digits of a natural number (the model of Python `str` on a
non-negative int). -/
def natChars (n : Nat) : List Char := natCharsAux (n + 1) n

/-- The model of Python `str` on an int: optional minus sign followed by the
decimal digits. -/
def intChars (i : Int) : List Char :=
  if i < 0 then '-' :: natChars i.natAbs else natChars i.toNat

/-- Accumulate the value of a digit string left to right. -/
def digitsVal (a : Nat) (ds : List Char) : Nat :=
  ds.foldl (fun acc c => acc * 10 + digitVal c) a

/-- Consume a maximal nonempty run of decimal digits (`[0-9]+`) from the front,
returning its value and the rest. -/
def parseNatToken (cs : List Char) : Option (Nat × List Char) :=
  let ds := cs.takeWhile Char.isDigit
  if ds.isEmpty then none
  else some (digitsVal 0 ds, cs.dropWhile Char.isDigit)

/-- Consume a `-?[0-9]+` prefix, returning its value and the rest. -/
def parseIntToken (cs : List Char) : Option (Int × List Char) :=
  match cs with
  | [] => none
  | c :: rest =>
    if c = '-' then (parseNatToken rest).map fun p => (-(p.1 : Int), p.2)
    else (parseNatToken (c :: rest)).map fun p => ((p.1 : Int), p.2)

/-! ## `parse_range` (`typed_io/base_parsers.py` lines 95-106) -/

/-- The separator class `([-:,])` of `range_pat`. -/
def isRangeSep (c : Char) : Bool := c = '-' || c = ':' || c = ','

/-- `range_pat.fullmatch`: `(-?[0-9]+)([-:,])(-?[0-9]+)(?:\2(-?[0-9]+))?` — two or
three integers joined by one consistent separator character.  Returns the matched
groups. -/
def rangePatFullmatch (cs : List Char) : Option (Int × Int × Option Int) :=
  match parseIntToken cs with
  | none => none
  | some (a, r₁) =>
    match r₁ with
    | [] => none
    | sep :: r₂ =>
      if isRangeSep sep then
        match parseIntToken r₂ with
        | none => none
        | some (b, r₃) =>
          match r₃ with
          | [] => some (a, b, none)
          | c :: r₄ =>
            if c = sep then
              match parseIntToken r₄ with
              | none => none
              | some (st, r₅) =>
                if r₅.isEmpty then some (a, b, some st) else none
            else none
      else none

/-- `parse_range(s)`: full-match the pattern (`ValueError` otherwise) and build
`range(*args)`; a `range` with step `0` is a Python `ValueError`. -/
def parseRange (cs : List Char) : Except CExc (Int × Int × Int) :=
  match rangePatFullmatch cs with
  | none => .error (.valueErr "could not parse range")
  | some (a, b, none) => .ok (a, b, 1)
  | some (a, b, some st) =>
    if st = 0 then .error (.valueErr "range() arg 3 must not be zero")
    else .ok (a, b, st)

/-! ## Fraction parsing/normalization (Python `fractions.Fraction`) -/

/-- `Fraction(numerator, denominator)` for int arguments: `ZeroDivisionError` on a
zero denominator, otherwise reduce by the gcd and normalize the sign into the
numerator. -/
def normFraction (n d : Int) : Except CExc (Int × Int) :=
  if d = 0 then .error (.valueErr "ZeroDivisionError")
  else
    let g : Int := Int.gcd n d
    let n₁ := n / g
    let d₁ := d / g
    if d₁ < 0 then .ok (-n₁, -d₁) else .ok (n₁, d₁)

/-- `Fraction(s)` for a decimal-rational string: `-?[0-9]+(/[0-9]+)?` (CPython's
`_RATIONAL_FORMAT` restricted to the forms `str(Fraction)` produces: the denominator
is unsigned), then normalized. -/
def parseFraction (cs : List Char) : Except CExc (Int × Int) :=
  match parseIntToken cs with
  | none => .error (.valueErr "invalid literal for Fraction")
  | some (n, rest) =>
    match rest with
    | [] => .ok (n, 1)
    | c :: r₂ =>
      if c = '/' then
        match parseNatToken r₂ with
        | some (d, []) => normFraction n (d : Int)
        | _ => .error (.valueErr "invalid literal for Fraction")
      else .error (.valueErr "invalid literal for Fraction")

/-! ## Enum and Flag parsers (`typed_io/base_parsers.py` lines 111-180)

The claims quantify over registered enum types; the development instantiates the
`EnumParser`/`FlagParser` machinery at the two concrete enum types the repository's
tests use: a plain three-member enum and a two-member flag enum. -/

/-- Member names of the modelled plain enum (`SomeEnum`: `foo`, `bar`, `baz`). -/
def enumMembers : List String := ["foo", "bar", "baz"]

/-- Member names of the modelled flag enum (`SomeFlag`: `foo = 1`, `bar = 2`). -/
def flagMembers : List String := ["foo", "bar"]

/-- `getattr(self.enum, arg)` of `EnumParser._parse`: look a member up by name,
`ValueError` when the name is not a member. -/
def enumGetattr (members : List String) (arg : String) : Except CExc Nat :=
  match members.findIdx? (fun m => m == arg) with
  | some i => .ok i
  | none => .error (.valueErr "could not convert to enum member")

/-- `EnumParser.config_decode` for the modelled plain enum: only string lookups
(`getattr` with a non-string name is a `TypeError`). -/
def enumConfigDecode : ConfigValue → Except CExc Nat
  | .str s => enumGetattr enumMembers s
  | _ => .error (.typeErr "attribute name must be string")

/-- `EnumParser.config_encode` for the modelled plain enum: `value.name`. -/
def enumConfigEncode (i : Nat) : Except CExc ConfigValue :=
  match enumMembers[i]? with
  | some nm => .ok (.str nm)
  | none => .error (.typeErr "Expected enum instance")

/-- `s.split("|")` over characters; splitting the empty string yields `[""]` as in
Python. -/
def splitOnBar : List Char → List (List Char)
  | [] => [[]]
  | c :: rest =>
    if c = '|' then [] :: splitOnBar rest
    else
      match splitOnBar rest with
      | [] => [[c]]
      | p :: ps => (c :: p) :: ps

/-- `FlagParser._parse(arg)`: split the string on `|`, resolve each part with the
enum `getattr`, and `reduce(operator.or_, ...)` the member bit values. -/
def flagParseStr (s : String) : Except CExc Nat := do
  let parts := splitOnBar s.data
  let bits ← parts.mapM fun p => do
    let i ← enumGetattr flagMembers (String.mk p)
    Except.ok (2 ^ i)
  match bits with
  | [] => .error (.typeErr "reduce() of empty iterable with no initial value")
  | b :: bs => .ok (bs.foldl (· ||| ·) b)

/-- `FlagParser.config_decode`: a string goes through `_parse`; a collection
`reduce(operator.or_, ...)`s the per-element decodes (an empty collection is the
`reduce` `TypeError`); anything else is a `TypeError`. -/
def flagConfigDecode : ConfigValue → Except CExc Nat
  | .str s => flagParseStr s
  | .list xs => flagDecodeCollection xs
  | .set xs => flagDecodeCollection xs
  | _ => .error (.typeErr "Expected str or collection of str")
where
  flagDecodeCollection (xs : List ConfigValue) : Except CExc Nat := do
    let bits ← xs.mapM fun x =>
      match x with
      | .str s => flagParseStr s
      | _ => Except.error (.typeErr "attribute name must be string")
    match bits with
    | [] => .error (.typeErr "reduce() of empty iterable with no initial value")
    | b :: bs => .ok (bs.foldl (· ||| ·) b)

/-- The bit-decomposition loop of `FlagParser.config_encode` (base_parsers.py lines
169-176): `while a > 0: a, b = divmod(a, 2); if b: vals.append(e); e *= 2`;
`fuel`-structured so it evaluates definitionally (call with `fuel ≥ a`). -/
def flagValsAux : Nat → Nat → Nat → List Nat
  | 0, _, _ => []
  | fuel + 1, a, e =>
    if a = 0 then []
    else (if a % 2 = 1 then [e] else []) ++ flagValsAux fuel (a / 2) (e * 2)

/-- `self.enum(i)` for the modelled flag enum: member lookup by bit value
(`ValueError` for a value that is not a single member bit). -/
def flagMemberByValue (v : Nat) : Except CExc String :=
  match (List.range flagMembers.length).findIdx? (fun i => 2 ^ i == v) with
  | some i =>
    match flagMembers[i]? with
    | some nm => .ok nm
    | none => .error (.valueErr "not a valid flag value")
  | none => .error (.valueErr "not a valid flag value")

/-- `FlagParser.config_encode`: decompose the flag's value into bits and join the
member names with `"|"`. -/
def flagConfigEncode (bits : Nat) : Except CExc ConfigValue := do
  let vals := flagValsAux (bits + 1) bits 1
  let names ← vals.mapM flagMemberByValue
  .ok (.str (String.intercalate "|" names))

/-! ## Atomic config round-trip family (`config_encode.py` / `config_decode.py`)

The modelled subfamily of the atomic types registered with both `config_encoder`
and `config_decoder`: `int`, `bool`, `str`, `Fraction`, `range`, a plain enum and a
flag enum.  (`float`/`Decimal` carry the documented lossy representations; `date`,
`UUID`, IP addresses, `Path`, URLs and regex patterns delegate to external
formatting libraries and are outside this model.) -/

inductive AtomTy where
  | aint
  | abool
  | astr
  | afraction
  | arange
  | aenum
  | aflag
deriving DecidableEq

/-- Instances of the modelled atomic types. -/
inductive AtomVal where
  | vint (n : Int)
  | vbool (b : Bool)
  | vstr (s : String)
  | vfraction (num den : Int)
  | vrange (start stop step : Int)
  | venum (i : Nat)
  | vflag (bits : Nat)
deriving DecidableEq

/-- The registered type an instance belongs to. -/
def tyOf : AtomVal → AtomTy
  | .vint _ => .aint
  | .vbool _ => .abool
  | .vstr _ => .astr
  | .vfraction _ _ => .afraction
  | .vrange _ _ _ => .arange
  | .venum _ => .aenum
  | .vflag _ => .aflag

/-- Python-side well-formedness of an instance: a `Fraction` is stored reduced with
a positive denominator, a `range` has a nonzero step, an enum instance is one of the
members, and a flag value only carries member bits. -/
def wfAtom : AtomVal → Prop
  | .vint _ => True
  | .vbool _ => True
  | .vstr _ => True
  | .vfraction n d => 0 < d ∧ Int.gcd n d = 1
  | .vrange _ _ st => st ≠ 0
  | .venum i => i < enumMembers.length
  | .vflag bits => bits < 2 ^ flagMembers.length

/-- `config_encoder` restricted to the modelled atomic family (config_encode.py):
`int`/`bool`/`str` encode as themselves; `to_config_fraction` writes the bare
numerator when the denominator is 1 and `str(frac)` (i.e. `"num/den"`) otherwise;
`to_range_config` writes `"start:stop"` when the step is 1 and `"start:stop:step"`
otherwise; enums encode as the member name and flags via the `"|"`-joined bit
decomposition. -/
def configEncodeAtom : AtomVal → Except CExc ConfigValue
  | .vint n => .ok (.int n)
  | .vbool b => .ok (.bool b)
  | .vstr s => .ok (.str s)
  | .vfraction n d =>
    if d = 1 then .ok (.int n)
    else .ok (.str (String.mk (intChars n ++ '/' :: natChars d.toNat)))
  | .vrange a b st =>
    if st = 1 then .ok (.str (String.mk (intChars a ++ ':' :: intChars b)))
    else .ok (.str (String.mk (intChars a ++ ':' :: (intChars b ++ ':' :: intChars st))))
  | .venum i => enumConfigEncode i
  | .vflag bits => flagConfigEncode bits

/-- `config_decoder` restricted to the modelled atomic family (config_decode.py):

* `to_int`: registered for `int` and `str` via `to_instance_of` (a `bool` config
  value dispatches to the `int` registration because `bool` subclasses `int`;
  the `float` registration has no counterpart in the modelled value universe);
* `to_bool`: identity on `bool`, `parse_bool` on `str` (only `"true"`/`"false"`,
  case-insensitively);
* `to_str`: registered for `str` only;
* `to_fraction`: `Fraction` from `int`, from a rational string, or from a 2-element
  list/tuple (`numerator_denominator_to_fraction`);
* `to_range`: `parse_range` on `str`, `range(*tup)` on a 1/2/3-element list,
  `range(i)` on an `int`;
* enums/flags: the `EnumParser`/`FlagParser` decoders above;
* every unregistered input type is `cant_decode_to`'s `TypeError`. -/
def configDecodeAtom : AtomTy → ConfigValue → Except CExc AtomVal
  | .aint, .int n => .ok (.vint n)
  | .aint, .bool b => .ok (.vint (if b then 1 else 0))
  | .aint, .str s =>
    match parseIntToken s.data with
    | some (n, []) => .ok (.vint n)
    | _ => .error (.valueErr "invalid literal for int")
  | .aint, _ => .error (.typeErr "cant decode to int")
  | .abool, .bool b => .ok (.vbool b)
  | .abool, .str s =>
    if s.toLower = "true" then .ok (.vbool true)
    else if s.toLower = "false" then .ok (.vbool false)
    else .error (.valueErr "Legal boolean string constants")
  | .abool, _ => .error (.typeErr "cant decode to bool")
  | .astr, .str s => .ok (.vstr s)
  | .astr, _ => .error (.typeErr "cant decode to str")
  | .afraction, .int n => .ok (.vfraction n 1)
  | .afraction, .bool b => .ok (.vfraction (if b then 1 else 0) 1)
  | .afraction, .str s => (parseFraction s.data).map fun p => .vfraction p.1 p.2
  | .afraction, .list xs =>
    match xs with
    | [.int a, .int b] => (normFraction a b).map fun p => .vfraction p.1 p.2
    | [_, _] => .error (.typeErr "cant decode to Fraction")
    | _ => .error (.valueErr "requires a 2-tuple")
  | .afraction, _ => .error (.typeErr "cant decode to Fraction")
  | .arange, .str s => (parseRange s.data).map fun t => .vrange t.1 t.2.1 t.2.2
  | .arange, .int n => .ok (.vrange 0 n 1)
  | .arange, .list xs =>
    match xs with
    | [.int b] => .ok (.vrange 0 b 1)
    | [.int a, .int b] => .ok (.vrange a b 1)
    | [.int a, .int b, .int st] =>
      if st = 0 then .error (.valueErr "range() arg 3 must not be zero")
      else .ok (.vrange a b st)
    | _ => .error (.typeErr "cant decode to range")
  | .arange, _ => .error (.typeErr "cant decode to range")
  | .aenum, v => (enumConfigDecode v).map .venum
  | .aflag, v => (flagConfigDecode v).map .vflag

/-- `config_decoder(T)(config_encoder(T)(x))` — the round-trip of the claim. -/
def roundTripAtom (v : AtomVal) : Except CExc AtomVal := do
  configDecodeAtom (tyOf v) (← configEncodeAtom v)


/-! ## Spec-side predicates used by theorem statements -/

/-- Presence of one of the two constructor-naming keys
(`CLASSPATH_KEY in obj or CONSTRUCTOR_KEY in obj`). -/
def hasConstructorKey (c : ConfigValue) : Bool :=
  match c with
  | .map kvs => kvs.any (keyIs "__classpath__") || kvs.any (keyIs "__constructor__")
  | _ => false

/-- The claim's union-arity agreement condition: all resolved branch arities agree
on the parser action and on `normalized_nargs`. -/
def agreeNargs (as : List NargsAction) : Prop :=
  ∀ a ∈ as, ∀ b ∈ as, a.append = b.append ∧ normalizedNargs a = normalizedNargs b

instance (as : List NargsAction) : Decidable (agreeNargs as) := by
  unfold agreeNargs
  infer_instance

/-- The branches `bs` all fail on `v` with the (tolerated) errors `es`, in order. -/
def failsTolerated (v : ConfigValue)
    (bs : List (ConfigValue → Except CExc ConfigValue)) (es : List CExc) : Prop :=
  List.Forall₂ (fun b e => b v = .error e ∧ configDecodeTolerated e = true) bs es

/-! # Theorems -/

/-! ### General list helpers -/

theorem filter_map_fuse {α β : Type} (g : α → β) (p : β → Bool) (l : List α) :
    ((l.map fun a => (a, g a)).filter fun pr => p pr.2).map Prod.fst =
      l.filter fun a => p (g a) := by
  induction l with
  | nil => rfl
  | cons a t ih =>
    by_cases h : p (g a) <;> simp [h, ih]

theorem dedup_length_le_one_iff {α : Type} [DecidableEq α] (l : List α) :
    l.dedup.length ≤ 1 ↔ ∀ a ∈ l, ∀ b ∈ l, a = b := by
  constructor
  · intro h a ha b hb
    rw [← List.mem_dedup] at ha hb
    match hd : l.dedup, ha, hb with
    | [x], ha, hb =>
      simp at ha hb
      rw [ha, hb]
    | [], ha, _ => simp at ha
    | x :: y :: t, _, _ => rw [hd] at h; simp at h
  · intro h
    match hd : l.dedup with
    | [] => simp
    | [x] => simp
    | x :: y :: t =>
      have hx : x ∈ l := by rw [← List.mem_dedup, hd]; simp
      have hy : y ∈ l := by rw [← List.mem_dedup, hd]; simp
      have hxy : x = y := h x hx y hy
      have : l.dedup.Nodup := List.nodup_dedup l
      rw [hd] at this
      simp [hxy] at this

/-! ### C7 — `compute_parse_order` -/

/-- C7: the claim states that for a parse order of valid parameter names and a
wildcard, `compute_parse_order` returns without raising, and that `NameError` is
raised only when the order contains a non-parameter name.  In the source the guard
`any((n not in param_names) or (n is not Ellipsis) for n in parse_order)` combines
its two tests with `or` instead of `and`, so it holds for every entry (a parameter
name is not `Ellipsis`, and `Ellipsis` is not a parameter name): here the perfectly
valid order `("a", Ellipsis)` over parameters `{"a", "b"}` raises `NameError`
instead of returning `["a", "b"]`. -/
theorem computeParseOrder_valid_order_raises :
    computeParseOrder (some [POEntry.pname "a", POEntry.wildcard]) ["a", "b"] =
      .error "NameError" := rfl

/-! ### C8 — `SubCommandFunc.get_env` -/

/-- C8: the claim states that a parameter opted in via `parse_env = {"x": "MY_X"}`
with `MY_X` present in the environment is mapped to that variable's value.  The
source guards on `env_name in os.environ` but then reads `os.environ[arg_name]`:
with the environment `{"MY_X": "1"}` the lookup of the parameter name `"x"` raises
`KeyError` instead of producing `{"x": "1"}`. -/
theorem getEnv_wrong_key_raises :
    getEnv [("x", "MY_X")] [("MY_X", "1")] = .error "x" := rfl

/-! ### C5 — mapping CLI arity and parser -/

/-- C5: the arity half of the claim holds — `mapping_nargs` yields zero-or-more for
`Mapping[str, int]` and `cli_split_keyval` splits a token at its first `=` — but the
resolved CLI parser cannot be constructed: `MappingCLIParser.__init__` compares the
`CLINargsAction` records returned by `cli_nargs` against `None` (always true) and
its raise statement names `CLINestedCollectionsNotAllowed`, an identifier that is
not defined in `cli_parse.py`, so building the parser for `Mapping[str, int]` dies
with a `NameError` instead of accepting `["a=1", "b=2"]`. -/
theorem mappingCLIParser_always_raises :
    cliSplitKeyval "a=1" = ["a", "1"] ∧
    cliSplitKeyval "b=2=3" = ["b", "2=3"] ∧
    cliNargs (.mapT .string .int) = .ok ⟨.star, false⟩ ∧
    mappingCLIParserInit .string .int =
      .error (.nameErr "CLINestedCollectionsNotAllowed") :=
  ⟨rfl, rfl, rfl, rfl⟩

/-! ### C9 — inflation recognition -/

/-- C9 counterexample: the claim says inflation is attempted exactly when the value
is a mapping whose keys are all drawn from the reserved set.  The mapping
`{"__args__": []}` has all keys in the reserved set, yet `_is_inflatable_config`
also requires one of `__classpath__`/`__constructor__` to be present, so
`inflate_config` returns it unchanged. -/
theorem inflate_config_reserved_keys_not_sufficient :
    claimInflatableCond (.map [(.str "__args__", .list [])]) = true ∧
    inflate_config (.map [(.str "__args__", .list [])]) =
      .unchanged (.map [(.str "__args__", .list [])]) :=
  ⟨rfl, rfl⟩

/-- C9 (amended): `inflate_config` attempts declarative construction exactly when
the value is a mapping whose keys are all drawn from the reserved set *and* at least
one of the constructor-naming keys `__classpath__`/`__constructor__` is present; in
particular any mapping with a key outside the reserved set is returned unchanged. -/
theorem inflate_config_characterization (c : ConfigValue) :
    (inflate_config c = .inflated c ↔
      claimInflatableCond c = true ∧ hasConstructorKey c = true) ∧
    (claimInflatableCond c = false → inflate_config c = .unchanged c) := by
  have hsplit : isInflatableConfig c =
      (hasConstructorKey c && claimInflatableCond c) := by
    cases c <;> rfl
  constructor
  · unfold inflate_config
    rw [hsplit]
    by_cases h1 : hasConstructorKey c = true <;>
      by_cases h2 : claimInflatableCond c = true <;>
        simp [h1, h2]
  · intro h
    unfold inflate_config
    rw [hsplit, h]
    simp

/-- C9 witness: a mapping naming a classpath is inflated; a mapping with a foreign
key is returned unchanged. -/
theorem inflate_config_characterization_witness :
    inflate_config (.map [(.str "__classpath__", .str "pkg.Widget")]) =
      .inflated (.map [(.str "__classpath__", .str "pkg.Widget")]) ∧
    inflate_config (.map [(.str "x", .null)]) =
      .unchanged (.map [(.str "x", .null)]) :=
  ⟨(inflate_config_characterization _).1.mpr ⟨rfl, rfl⟩,
   (inflate_config_characterization _).2 rfl⟩

/-! ### C10 — collection decoders' container typechecks -/

/-- C10 counterexample: the claim says every non-string collection target rejects a
plain string config value instead of iterating it character-by-character.  But
`SequenceConfigDecoder` overrides `legal_container_types` with
`(collections.abc.Sequence,)`, and a Python `str` *is* an `abc.Sequence`: the
typecheck accepts `"ab"`, and the decoder then iterates it into the two
one-character strings. -/
theorem sequence_decoder_accepts_plain_string :
    sequenceTypecheck (.str "ab") = .ok (.str "ab") ∧
    sequenceDecoderCall (fun c => .ok c) (.str "ab") =
      .ok (.list [.str "a", .str "b"]) :=
  ⟨rfl, rfl⟩

/-- C10 (amended): `Collection`/`Tuple` targets (legal types `NonAnyStrCollection`)
do reject plain strings, and `Sequence` targets reject unordered containers (sets
and mappings) — but a `Sequence` target accepts a plain string, since `str` is an
`abc.Sequence`.  Whenever the container typecheck rejects, the element decoder is
never invoked (the decoder call's result does not depend on it). -/
theorem collection_typecheck_characterization (c : ConfigValue) :
    (collectionTypecheck c =
        .error (.typeErr "Expected an instance of legal_container_types") ↔
      isNonAnyStrCollection c = false) ∧
    (sequenceTypecheck c =
        .error (.typeErr "Expected an instance of legal_container_types") ↔
      isAbcSequence c = false) ∧
    (∀ s, collectionTypecheck (.str s) =
      .error (.typeErr "Expected an instance of legal_container_types")) ∧
    (∀ xs, sequenceTypecheck (.set xs) =
      .error (.typeErr "Expected an instance of legal_container_types")) ∧
    (∀ kvs, sequenceTypecheck (.map kvs) =
      .error (.typeErr "Expected an instance of legal_container_types")) ∧
    (isNonAnyStrCollection c = false →
      ∀ d₁ d₂, collectionDecoderCall d₁ c = collectionDecoderCall d₂ c) ∧
    (isAbcSequence c = false →
      ∀ d₁ d₂, sequenceDecoderCall d₁ c = sequenceDecoderCall d₂ c) := by
  refine ⟨?_, ?_, ?_, ?_, ?_, ?_, ?_⟩
  · cases c <;> simp [collectionTypecheck, typecheckWith, isNonAnyStrCollection]
  · cases c <;> simp [sequenceTypecheck, typecheckWith, isAbcSequence]
  · intro s; rfl
  · intro xs; rfl
  · intro kvs; rfl
  · intro h d₁ d₂
    cases c <;> first
      | rfl
      | simp [isNonAnyStrCollection] at h
  · intro h d₁ d₂
    cases c <;> first
      | rfl
      | simp [isAbcSequence] at h

/-- C10 witness: the characterization applied at a plain string (rejected by the
collection decoder, its element decoder irrelevant) and at a set (rejected by the
sequence decoder). -/
theorem collection_typecheck_characterization_witness :
    collectionTypecheck (.str "ab") =
      .error (.typeErr "Expected an instance of legal_container_types") ∧
    sequenceDecoderCall (fun _ => .ok .null) (.set []) =
      sequenceDecoderCall (fun _ => .error .configUndef) (.set []) :=
  ⟨(collection_typecheck_characterization (.str "ab")).2.2.1 "ab",
   (collection_typecheck_characterization (.set [])).2.2.2.2.2.2 rfl _ _⟩

/-! ### C6 — union CLI arity -/

/-- C6 counterexample: the claim says the resolver produces an arity exactly when
every non-null branch agrees on normalized arity.  The branches
`List[Tuple[int, int]]` and `Tuple[int, int]` both have normalized arity 2, yet the
resolver raises `CLIAmbiguousUnionType` because it additionally compares the parser
*actions* (`"append"` vs `None`); agreement on normalized `nargs` alone is not
sufficient. -/
theorem unionNargs_normalized_agreement_not_sufficient :
    cliNargs (.listT (.tupleT (TyList.ofList [.int, .int]))) = .ok ⟨.num 2, true⟩ ∧
    cliNargs (.tupleT (TyList.ofList [.int, .int])) = .ok ⟨.num 2, false⟩ ∧
    normalizedNargs ⟨.num 2, true⟩ = normalizedNargs ⟨.num 2, false⟩ ∧
    cliNargs (.unionT (TyList.ofList
      [.listT (.tupleT (TyList.ofList [.int, .int])),
       .tupleT (TyList.ofList [.int, .int])])) = .error .ambiguousUnion :=
  ⟨rfl, rfl, rfl, rfl⟩

/-- C6 (amended): for a union type, let `as` be the arities of the branches that
survive `union_nargs`'s collection (non-null branches whose own resolution did not
raise a tolerated undefined-error).  If `as` is nonempty, the resolver returns the
first collected arity exactly when all of `as` agree *both* on the parser action and
on `normalized_nargs` (where only one-or-more collapses to zero-or-more — optional
stays distinct), and raises `CLIAmbiguousUnionType` otherwise. -/
theorem unionNargs_agreement_characterization (ts : TyList) (a : NargsAction)
    (as₂ : List NargsAction) (h : maybeMapUnion ts = .ok (a :: as₂)) :
    (cliNargs (.unionT ts) = .ok a ↔ agreeNargs (a :: as₂)) ∧
    (¬ agreeNargs (a :: as₂) → cliNargs (.unionT ts) = .error .ambiguousUnion) := by
  have hred : cliNargs (.unionT ts) =
      (if (((a :: as₂).map fun x : NargsAction => x.append).dedup).length > 1 then
        (.error .ambiguousUnion : Except CLIErr NargsAction)
      else if (((a :: as₂).map normalizedNargs).dedup).length > 1 then
        .error .ambiguousUnion
      else .ok a) := by
    have hunfold : cliNargs (.unionT ts) =
        (Except.bind (maybeMapUnion ts) fun all =>
          match all with
          | [] => .error .undefinedForType
          | a :: rest =>
            let allN := a :: rest
            if ((allN.map fun x => x.append).dedup).length > 1 then
              .error .ambiguousUnion
            else if ((allN.map normalizedNargs).dedup).length > 1 then
              .error .ambiguousUnion
            else .ok a) := rfl
    rw [hunfold, h]
    rfl
  have hagree : agreeNargs (a :: as₂) ↔
      (((a :: as₂).map fun x : NargsAction => x.append).dedup).length ≤ 1 ∧
      (((a :: as₂).map normalizedNargs).dedup).length ≤ 1 := by
    rw [dedup_length_le_one_iff, dedup_length_le_one_iff]
    unfold agreeNargs
    constructor
    · intro hp
      constructor
      · intro x hx y hy
        simp only [List.mem_map] at hx hy
        obtain ⟨x₀, hx₀, rfl⟩ := hx
        obtain ⟨y₀, hy₀, rfl⟩ := hy
        exact (hp x₀ hx₀ y₀ hy₀).1
      · intro x hx y hy
        simp only [List.mem_map] at hx hy
        obtain ⟨x₀, hx₀, rfl⟩ := hx
        obtain ⟨y₀, hy₀, rfl⟩ := hy
        exact (hp x₀ hx₀ y₀ hy₀).2
    · intro hb x hx y hy
      exact ⟨hb.1 _ (List.mem_map_of_mem _ hx) _ (List.mem_map_of_mem _ hy),
        hb.2 _ (List.mem_map_of_mem _ hx) _ (List.mem_map_of_mem _ hy)⟩
  rw [hred, hagree]
  by_cases h1 : (((a :: as₂).map fun x : NargsAction => x.append).dedup).length > 1
  · rw [if_pos h1]
    refine ⟨⟨fun hc => absurd hc (by simp), fun hc => absurd hc (by omega)⟩, fun _ => rfl⟩
  · rw [if_neg h1]
    by_cases h2 : (((a :: as₂).map normalizedNargs).dedup).length > 1
    · rw [if_pos h2]
      refine ⟨⟨fun hc => absurd hc (by simp), fun hc => absurd hc (by omega)⟩, fun _ => rfl⟩
    · rw [if_neg h2]
      refine ⟨⟨fun _ => by omega, fun _ => rfl⟩, fun hc => absurd (by omega) hc⟩

/-- C6 witness: a two-branch union of single-token types agrees and resolves to a
single token; `Union[List[int], int]` disagrees (zero-or-more vs a single token) and
raises the ambiguity error. -/
theorem unionNargs_agreement_characterization_witness :
    cliNargs (.unionT (TyList.ofList [.int, .bool])) = .ok ⟨.nnone, false⟩ ∧
    cliNargs (.unionT (TyList.ofList [.listT .int, .int])) =
      .error .ambiguousUnion :=
  ⟨(unionNargs_agreement_characterization (TyList.ofList [.int, .bool])
      ⟨.nnone, false⟩ [⟨.nnone, false⟩] rfl).1.mpr (by decide),
   (unionNargs_agreement_characterization (TyList.ofList [.listT .int, .int])
      ⟨.star, false⟩ [⟨.nnone, false⟩] rfl).2 (by decide)⟩

/-! ### C4 — union config decoding -/

theorem unionAttempt_cons_error (tol : CExc → Bool)
    (b : ConfigValue → Except CExc ConfigValue)
    (bs : List (ConfigValue → Except CExc ConfigValue)) (v : ConfigValue)
    (acc : List CExc) (e : CExc) (hb : b v = .error e) (ht : tol e = true) :
    unionAttempt tol (b :: bs) v acc = unionAttempt tol bs v (e :: acc) := by
  conv_lhs => unfold unionAttempt
  rw [hb]
  dsimp only
  rw [ht]
  simp

theorem unionAttempt_append (tol : CExc → Bool)
    (bs₁ : List (ConfigValue → Except CExc ConfigValue)) (v : ConfigValue)
    (es : List CExc)
    (h : List.Forall₂ (fun b e => b v = .error e ∧ tol e = true) bs₁ es) :
    ∀ (bs₂ : List (ConfigValue → Except CExc ConfigValue)) (acc : List CExc),
      unionAttempt tol (bs₁ ++ bs₂) v acc =
        unionAttempt tol bs₂ v (es.reverse ++ acc) := by
  induction h with
  | nil => intro bs₂ acc; simp
  | cons hb hrest ih =>
    intro bs₂ acc
    rw [List.cons_append, unionAttempt_cons_error tol _ _ _ _ _ hb.1 hb.2, ih bs₂]
    congr 1
    simp

/-- C4: when decoding a value at a union type, the branches are attempted in
declared order: (i) the result is that of the first branch whose decode succeeds,
earlier branches having failed with tolerated errors (`ConfigIOUndefinedForType` /
`UnknownSignature`); (ii) if every branch fails with a tolerated error the decoder
raises `AllFailed` carrying each branch's error in order; (iii) if a branch raises
an error outside the tolerated set — after tolerated failures — the decoder aborts
immediately with `RaisedDisallowedExceptions`, and the branches after it are never
consulted (the result does not depend on them). -/
theorem unionConfigDecode_protocol :
    (∀ (pre post : List (ConfigValue → Except CExc ConfigValue)) b v x es,
      failsTolerated v pre es → b v = .ok x →
      unionConfigDecode (pre ++ b :: post) v = .ok x) ∧
    (∀ bs v es, failsTolerated v bs es →
      unionConfigDecode bs v = .error (.allFailed es)) ∧
    (∀ pre post post₂ b v e es, failsTolerated v pre es →
      b v = .error e → configDecodeTolerated e = false →
      unionConfigDecode (pre ++ b :: post) v = .error (.raisedDisallowed [e]) ∧
      unionConfigDecode (pre ++ b :: post) v =
        unionConfigDecode (pre ++ b :: post₂) v) := by
  refine ⟨?_, ?_, ?_⟩
  · intro pre post b v x es hpre hb
    unfold unionConfigDecode
    rw [unionAttempt_append _ _ _ _ hpre]
    conv_lhs => unfold unionAttempt
    rw [hb]
  · intro bs v es hbs
    unfold unionConfigDecode
    have := unionAttempt_append _ _ _ _ hbs [] []
    rw [List.append_nil] at this
    rw [this]
    unfold unionAttempt
    simp
  · intro pre post post₂ b v e es hpre hb htol
    have hside : ∀ post' : List (ConfigValue → Except CExc ConfigValue),
        unionConfigDecode (pre ++ b :: post') v =
          .error (.raisedDisallowed [e]) := by
      intro post'
      unfold unionConfigDecode
      rw [unionAttempt_append _ _ _ _ hpre]
      conv_lhs => unfold unionAttempt
      rw [hb]
      dsimp only
      rw [htol]
      simp
    exact ⟨hside post, by rw [hside post, hside post₂]⟩

/-- C4 witness: with a tolerated-failing first branch, a succeeding branch wins; two
tolerated failures aggregate into `AllFailed`; a disallowed `TypeError` aborts
immediately and the branch after it is irrelevant. -/
theorem unionConfigDecode_protocol_witness :
    unionConfigDecode
      [fun _ => .error .configUndef, fun v => .ok v] (.int 3) = .ok (.int 3) ∧
    unionConfigDecode
      [fun _ => .error .configUndef, fun _ => .error .unknownSig] (.int 3) =
      .error (.allFailed [.configUndef, .unknownSig]) ∧
    unionConfigDecode
      [fun _ => .error .configUndef, fun _ => .error (.typeErr "boom"),
       fun v => .ok v] (.int 3) =
      .error (.raisedDisallowed [.typeErr "boom"]) :=
  ⟨unionConfigDecode_protocol.1 [fun _ => .error .configUndef] []
      (fun v => .ok v) (.int 3) (.int 3) [.configUndef]
      (List.Forall₂.cons ⟨rfl, rfl⟩ List.Forall₂.nil) rfl,
   unionConfigDecode_protocol.2.1
      [fun _ => .error .configUndef, fun _ => .error .unknownSig] (.int 3)
      [.configUndef, .unknownSig]
      (List.Forall₂.cons ⟨rfl, rfl⟩
        (List.Forall₂.cons ⟨rfl, rfl⟩ List.Forall₂.nil)),
   (unionConfigDecode_protocol.2.2 [fun _ => .error .configUndef]
      [fun v => .ok v] [] (fun _ => .error (.typeErr "boom")) (.int 3)
      (.typeErr "boom") [.configUndef]
      (List.Forall₂.cons ⟨rfl, rfl⟩ List.Forall₂.nil) rfl rfl).1⟩

/-! ### C2 — missing-required aggregation -/

theorem getWithName_isNone (ss : List (ArgSource × List (String × ConfigValue)))
    (n : String) :
    (getWithName ss n).isNone =
      ss.all fun sns => (List.lookup n sns.2).isNone := by
  induction ss with
  | nil => rfl
  | cons p t ih =>
    cases h : List.lookup n p.2 with
    | none => simp [getWithName, List.findSome?_cons, h, List.all_cons,
        ← ih, getWithName]
    | some v => simp [getWithName, List.findSome?_cons, h, List.all_cons]

/-- C2: if the parameters of the command's parse order that have no entry in any
gathered source (the defaults pseudo-source included) form a nonempty list `ms`,
then `prepare_args_kwargs` raises a single error carrying exactly that list — every
missing name together, not just the first — and the target function is never
invoked: `execute`'s result does not depend on it. -/
theorem prepare_missing_aggregates (c : SubCmd) (cliNs : List (String × CLIVal))
    (conf env : Option (List (String × ConfigValue))) (ms : List String)
    (hms : ms = c.parseOrder.filter fun n =>
      (buildSources c (filteredCLI cliNs) env conf).all fun sns =>
        (List.lookup n sns.2).isNone)
    (hne : ms ≠ []) :
    prepareArgsKwargs c cliNs conf env = .error ms ∧
    ∀ f g, executeModel c f cliNs conf env = executeModel c g cliNs conf env := by
  have hmiss :
      ((c.parseOrder.map fun name =>
          (name, getWithName (buildSources c (filteredCLI cliNs) env conf) name)).filter
            fun p => p.2.isNone).map Prod.fst = ms := by
    rw [filter_map_fuse, hms]
    exact List.filter_congr fun n _ => getWithName_isNone _ n
  have hprep : prepareArgsKwargs c cliNs conf env = .error ms := by
    simp only [prepareArgsKwargs]
    rw [hmiss]
    have : ms.isEmpty = false := by
      cases ms with
      | nil => exact absurd rfl hne
      | cons a t => rfl
    rw [this]
    rfl
  exact ⟨hprep, fun f g => by unfold executeModel; rw [hprep]; rfl⟩

/-- C2 witness: three required parameters `a`, `b`, `c` absent from every source are
all reported together, and the invoked function is irrelevant. -/
theorem prepare_missing_aggregates_witness :
    prepareArgsKwargs
      ⟨[], ["a", "b", "c"], [], [], fun _ => ⟨id, id, id⟩⟩ [] none none =
      .error ["a", "b", "c"] ∧
    executeModel ⟨[], ["a", "b", "c"], [], [], fun _ => ⟨id, id, id⟩⟩
        (fun _ => .null) [] none none =
      executeModel ⟨[], ["a", "b", "c"], [], [], fun _ => ⟨id, id, id⟩⟩
        (fun _ => .int 0) [] none none :=
  ⟨(prepare_missing_aggregates
      ⟨[], ["a", "b", "c"], [], [], fun _ => ⟨id, id, id⟩⟩ [] none none
      ["a", "b", "c"] rfl (by simp)).1,
   (prepare_missing_aggregates
      ⟨[], ["a", "b", "c"], [], [], fun _ => ⟨id, id, id⟩⟩ [] none none
      ["a", "b", "c"] rfl (by simp)).2 _ _⟩

/-! ### C1 — per-parameter source selection and per-source decoding -/

theorem getWithName_eq_specSelect
    (ss : List (ArgSource × List (String × ConfigValue))) (n : String) :
    getWithName ss n = specSelect ss n := by
  induction ss with
  | nil => rfl
  | cons p t ih =>
    cases h : List.lookup n p.2 with
    | none =>
      have h1 : getWithName (p :: t) n = getWithName t n := by
        simp [getWithName, List.findSome?_cons, h]
      have h2 : specSelect (p :: t) n = specSelect t n := by
        simp [specSelect, List.find?_cons, h]
      rw [h1, h2, ih]
    | some v => simp [getWithName, specSelect, List.findSome?_cons, List.find?_cons, h]

theorem chooseParser_eq_specDecodeFor (c : SubCmd) (n : String) (s : ArgSource)
    (v : ConfigValue) : chooseParser c n s v = specDecodeFor c n s v := by
  cases s with
  | CONFIG =>
    by_cases h : n ∈ c.parseConfigAsCli <;>
      simp [chooseParser, specDecodeFor, parserForSource, h]
  | CLI => simp [chooseParser, specDecodeFor, parserForSource]
  | ENV => simp [chooseParser, specDecodeFor, parserForSource]
  | DEFAULTS => simp [chooseParser, specDecodeFor, parserForSource]

/-- C1: whenever `prepare_args_kwargs` succeeds, the decoded value of every
parameter is obtained by walking the gathered sources in precedence order, taking
the first source with any entry for that name, and decoding the stored value with
the parser for that source (CLI parser for CLI, config decoder for config unless
the parameter is in `parse_config_as_cli` — then the CLI parser —, environment
parser for the environment, and defaults unchanged).  In particular, under
precedence `(CLI, CONFIG)` a parameter present in the (sentinel-filtered) CLI
namespace resolves from the CLI with the CLI parser, regardless of any config
content. -/
theorem prepare_resolves_per_spec (c : SubCmd) (cliNs : List (String × CLIVal))
    (conf env : Option (List (String × ConfigValue)))
    (res : List (String × ArgSource × ConfigValue))
    (hres : prepareArgsKwargs c cliNs conf env = .ok res) :
    (res = c.parseOrder.filterMap fun name =>
      (specSelect (buildSources c (filteredCLI cliNs) env conf) name).map fun sv =>
        (name, sv.1, specDecodeFor c name sv.1 sv.2)) ∧
    (∀ name v, c.lookupOrder = [.CLI, .CONFIG] →
      List.lookup name (filteredCLI cliNs) = some v →
      name ∈ c.parseOrder →
      (name, ArgSource.CLI, (c.tio name).cliParse v) ∈ res) := by
  have hmain : res = c.parseOrder.filterMap fun name =>
      (specSelect (buildSources c (filteredCLI cliNs) env conf) name).map fun sv =>
        (name, sv.1, specDecodeFor c name sv.1 sv.2) := by
    unfold prepareArgsKwargs at hres
    by_cases hemp :
        (((c.parseOrder.map fun name =>
            (name, getWithName (buildSources c (filteredCLI cliNs) env conf)
              name)).filter fun p => p.2.isNone).map Prod.fst).isEmpty = true
    · rw [if_pos hemp] at hres
      have hr := (Except.ok.inj hres).symm
      rw [hr, List.filterMap_map]
      refine List.filterMap_congr fun name _ => ?_
      show ((getWithName (buildSources c (filteredCLI cliNs) env conf)
          name).map fun sv => (name, sv.1, chooseParser c name sv.1 sv.2)) = _
      rw [getWithName_eq_specSelect]
      cases specSelect (buildSources c (filteredCLI cliNs) env conf) name with
      | none => rfl
      | some sv => simp [chooseParser_eq_specDecodeFor]
    · rw [if_neg hemp] at hres
      exact absurd hres (by simp)
  refine ⟨hmain, fun name v hord hlook hmem => ?_⟩
  have hcliF : (filteredCLI cliNs).isEmpty = false := by
    cases hcf : filteredCLI cliNs with
    | nil => rw [hcf] at hlook; simp [List.lookup] at hlook
    | cons a t => rfl
  have heff : effectiveLookupOrder c.lookupOrder =
      [.CLI, .CONFIG, .DEFAULTS] := by
    rw [hord]; rfl
  have hsel : specSelect (buildSources c (filteredCLI cliNs) env conf) name =
      some (.CLI, v) := by
    rw [← getWithName_eq_specSelect]
    unfold buildSources
    rw [heff, List.filterMap_cons]
    dsimp only
    rw [hcliF]
    simp only [Bool.false_eq_true, if_false]
    simp [getWithName, List.findSome?_cons, hlook]
  rw [hmain]
  refine List.mem_filterMap.mpr ⟨name, hmem, ?_⟩
  rw [hsel]
  rfl

/-- C1 witness: with precedence `(CLI, CONFIG)`, a parameter present in both the
CLI namespace and the config subsection resolves to the CLI value decoded by the
CLI parser, ignoring the config entry. -/
theorem prepare_resolves_per_spec_witness :
    (("x", ArgSource.CLI, ConfigValue.list [.str "cv"]) ∈
      [("x", ArgSource.CLI, ConfigValue.list [.str "cv"])]) :=
  (prepare_resolves_per_spec
    ⟨[.CLI, .CONFIG], ["x"], [], [],
      fun _ => ⟨fun w => .list [w], fun _ => .null, id⟩⟩
    [("x", .val (.str "cv"))] (some [("x", .int 7)]) none
    [("x", ArgSource.CLI, ConfigValue.list [.str "cv"])] rfl).2
    "x" (.str "cv") rfl rfl (by simp)

/-! ### C3 — atomic config round-trip -/

theorem digitChar_isDigit {d : Nat} (h : d ≤ 9) : (digitChar d).isDigit = true := by
  interval_cases d <;> decide

theorem digitVal_digitChar {d : Nat} (h : d ≤ 9) : digitVal (digitChar d) = d := by
  interval_cases d <;> decide

theorem natCharsAux_spec : ∀ fuel n, n < fuel →
    natCharsAux fuel n ≠ [] ∧
    (∀ c ∈ natCharsAux fuel n, c.isDigit = true) ∧
    ∀ a, digitsVal a (natCharsAux fuel n) =
      a * 10 ^ (natCharsAux fuel n).length + n := by
  intro fuel
  induction fuel with
  | zero => intro n h; omega
  | succ fuel ih =>
    intro n h
    by_cases h10 : n < 10
    · unfold natCharsAux
      rw [if_pos h10]
      refine ⟨by simp, ?_, ?_⟩
      · intro c hc
        simp at hc
        rw [hc]
        exact digitChar_isDigit (by omega)
      · intro a
        simp [digitsVal, digitVal_digitChar (show n ≤ 9 by omega)]
    · unfold natCharsAux
      rw [if_neg h10]
      have hdiv : n / 10 < fuel := by
        have h1 : n / 10 < n := Nat.div_lt_self (by omega) (by omega)
        omega
      obtain ⟨ihne, ihdig, ihval⟩ := ih (n / 10) hdiv
      refine ⟨by simp, ?_, ?_⟩
      · intro c hc
        rw [List.mem_append] at hc
        cases hc with
        | inl hc => exact ihdig c hc
        | inr hc =>
          simp at hc
          rw [hc]
          exact digitChar_isDigit (by omega)
      · intro a
        unfold digitsVal
        rw [List.foldl_append]
        have hmod : digitVal (digitChar (n % 10)) = n % 10 :=
          digitVal_digitChar (by omega)
        simp only [List.foldl_cons, List.foldl_nil, List.length_append,
          List.length_cons, List.length_nil]
        have hv := ihval a
        unfold digitsVal at hv
        rw [hv, hmod, pow_succ]
        have hdm := Nat.div_add_mod n 10
        generalize (10 : Nat) ^ (natCharsAux fuel (n / 10)).length = k
        ring_nf
        omega

theorem takeWhile_append_all {p : Char → Bool} : ∀ (xs ys : List Char),
    (∀ x ∈ xs, p x = true) → (∀ c cs, ys = c :: cs → p c = false) →
    (xs ++ ys).takeWhile p = xs ∧ (xs ++ ys).dropWhile p = ys := by
  intro xs
  induction xs with
  | nil =>
    intro ys h hy
    cases ys with
    | nil => exact ⟨rfl, rfl⟩
    | cons c cs =>
      simp only [List.nil_append]
      rw [List.takeWhile_cons, List.dropWhile_cons, hy c cs rfl]
      exact ⟨rfl, rfl⟩
  | cons x xs ih =>
    intro ys h hy
    obtain ⟨ht, hd⟩ := ih ys (fun a ha => h a (List.mem_cons_of_mem x ha)) hy
    simp only [List.cons_append]
    rw [List.takeWhile_cons, List.dropWhile_cons, h x (List.mem_cons_self x xs)]
    simp only [if_true]
    exact ⟨by rw [ht], by rw [hd]⟩

theorem parseNatToken_format (n : Nat) (rest : List Char)
    (hrest : ∀ c cs, rest = c :: cs → c.isDigit = false) :
    parseNatToken (natChars n ++ rest) = some (n, rest) := by
  obtain ⟨hne, hdig, hval⟩ := natCharsAux_spec (n + 1) n (by omega)
  have hnc : natChars n = natCharsAux (n + 1) n := rfl
  obtain ⟨htake, hdrop⟩ :=
    takeWhile_append_all (natChars n) rest (by rw [hnc]; exact hdig) hrest
  have hempty : (natChars n).isEmpty = false := by
    rw [hnc]
    cases hx : natCharsAux (n + 1) n with
    | nil => exact absurd hx hne
    | cons a t => rfl
  show (if ((natChars n ++ rest).takeWhile Char.isDigit).isEmpty = true then none
      else some (digitsVal 0 ((natChars n ++ rest).takeWhile Char.isDigit),
        (natChars n ++ rest).dropWhile Char.isDigit)) = some (n, rest)
  rw [htake, hdrop, hempty]
  simp only [Bool.false_eq_true, if_false]
  rw [hnc, hval 0]
  simp

theorem parseIntToken_format (i : Int) (rest : List Char)
    (hrest : ∀ c cs, rest = c :: cs → c.isDigit = false) :
    parseIntToken (intChars i ++ rest) = some (i, rest) := by
  by_cases hneg : i < 0
  · have hi : intChars i = '-' :: natChars i.natAbs := by
      unfold intChars; rw [if_pos hneg]
    rw [hi, List.cons_append]
    show (if ('-' : Char) = '-' then
        (parseNatToken (natChars i.natAbs ++ rest)).map
          fun p => (-(p.1 : Int), p.2)
      else (parseNatToken ('-' :: (natChars i.natAbs ++ rest))).map
          fun p => ((p.1 : Int), p.2)) = some (i, rest)
    rw [if_pos rfl, parseNatToken_format i.natAbs rest hrest]
    show some (-((i.natAbs : Nat) : Int), rest) = some (i, rest)
    rw [show -((i.natAbs : Nat) : Int) = i by omega]
  · have hi : intChars i = natChars i.toNat := by
      unfold intChars; rw [if_neg hneg]
    obtain ⟨hne, hdig, -⟩ := natCharsAux_spec (i.toNat + 1) i.toNat (by omega)
    have hnc : natChars i.toNat = natCharsAux (i.toNat + 1) i.toNat := rfl
    cases hx : natChars i.toNat with
    | nil => rw [hnc] at hx; exact absurd hx hne
    | cons c cs =>
      have hcdig : c.isDigit = true := by
        apply hdig
        rw [← hnc, hx]
        exact List.mem_cons_self c cs
      have hcne : ¬(c = '-') := by
        intro hcontra
        rw [hcontra] at hcdig
        exact absurd hcdig (by decide)
      rw [hi, hx, List.cons_append]
      show (if c = '-' then
          (parseNatToken (cs ++ rest)).map fun p => (-(p.1 : Int), p.2)
        else (parseNatToken (c :: (cs ++ rest))).map
            fun p => ((p.1 : Int), p.2)) = some (i, rest)
      rw [if_neg hcne, ← List.cons_append, ← hx,
        parseNatToken_format i.toNat rest hrest]
      show some (((i.toNat : Nat) : Int), rest) = some (i, rest)
      rw [show ((i.toNat : Nat) : Int) = i by omega]

theorem parseFraction_encodeStr (n d : Int) (h0 : 0 < d) (hg : Int.gcd n d = 1) :
    parseFraction (intChars n ++ '/' :: natChars d.toNat) = .ok (n, d) := by
  have hsl : ∀ c cs, ('/' :: natChars d.toNat) = c :: cs → c.isDigit = false := by
    intro c cs h
    injection h with h1 _
    rw [← h1]
    decide
  unfold parseFraction
  rw [parseIntToken_format n ('/' :: natChars d.toNat) hsl]
  have hd : parseNatToken (natChars d.toNat) = some (d.toNat, []) := by
    have := parseNatToken_format d.toNat [] (by intro c cs h; cases h)
    rwa [List.append_nil] at this
  dsimp only
  rw [if_pos rfl, hd]
  show normFraction n ((d.toNat : Nat) : Int) = .ok (n, d)
  have hdc : ((d.toNat : Nat) : Int) = d := by omega
  rw [hdc]
  unfold normFraction
  rw [if_neg (by omega : ¬d = 0), hg]
  simp only [Nat.cast_one, Int.ediv_one]
  rw [if_neg (by omega : ¬d < 0)]

theorem parseRange_encode2 (a b : Int) :
    parseRange (intChars a ++ ':' :: intChars b) = .ok (a, b, 1) := by
  have hsl : ∀ c cs, (':' :: intChars b) = c :: cs → c.isDigit = false := by
    intro c cs h
    injection h with h1 _
    rw [← h1]
    decide
  have hb : parseIntToken (intChars b) = some (b, []) := by
    have := parseIntToken_format b [] (by intro c cs h; cases h)
    rwa [List.append_nil] at this
  have hpat : rangePatFullmatch (intChars a ++ ':' :: intChars b) =
      some (a, b, none) := by
    unfold rangePatFullmatch
    rw [parseIntToken_format a (':' :: intChars b) hsl]
    dsimp only
    rw [if_pos (by decide : isRangeSep ':' = true), hb]
  unfold parseRange
  rw [hpat]

theorem parseRange_encode3 (a b st : Int) (hst : st ≠ 0) :
    parseRange (intChars a ++ ':' :: (intChars b ++ ':' :: intChars st)) =
      .ok (a, b, st) := by
  have hsl : ∀ c cs, (':' :: (intChars b ++ ':' :: intChars st)) = c :: cs →
      c.isDigit = false := by
    intro c cs h
    injection h with h1 _
    rw [← h1]
    decide
  have hsl2 : ∀ c cs, (':' :: intChars st) = c :: cs → c.isDigit = false := by
    intro c cs h
    injection h with h1 _
    rw [← h1]
    decide
  have hstp : parseIntToken (intChars st) = some (st, []) := by
    have := parseIntToken_format st [] (by intro c cs h; cases h)
    rwa [List.append_nil] at this
  have hpat : rangePatFullmatch
      (intChars a ++ ':' :: (intChars b ++ ':' :: intChars st)) =
      some (a, b, some st) := by
    unfold rangePatFullmatch
    rw [parseIntToken_format a _ hsl]
    dsimp only
    rw [if_pos (by decide : isRangeSep ':' = true),
      parseIntToken_format b (':' :: intChars st) hsl2]
    dsimp only
    rw [if_pos rfl, hstp]
    rfl
  unfold parseRange
  rw [hpat]
  dsimp only
  rw [if_neg hst]

/-- C3 counterexample: the zero-valued `Flag` instance is a well-formed value of a
type registered with both the config encoder and decoder, yet
`FlagParser.config_encode` writes it as the empty string (no bits set, nothing to
join), which `FlagParser.config_decode` cannot decode — `"".split("|")` yields
`[""]` and the empty member name fails the enum lookup with `ValueError`.  This is
neither a documented lossy numeric representation nor a template placeholder, so
the round-trip claim fails at this instance. -/
theorem roundTrip_zero_flag_fails :
    wfAtom (.vflag 0) ∧
    configEncodeAtom (.vflag 0) = .ok (.str "") ∧
    roundTripAtom (.vflag 0) =
      .error (.valueErr "could not convert to enum member") :=
  ⟨by show (0 : Nat) < 2 ^ flagMembers.length; decide, rfl, rfl⟩

/-- C3 (amended): for every well-formed instance of the modelled atomic family
(`int`, `bool`, `str`, `Fraction`, `range`, a plain enum, a flag enum),
`config_decoder(T)(config_encoder(T)(x)) == x` — with the single further exception
forced by the counterexample: the zero-valued flag instance, whose encoding `""`
does not decode. -/
theorem roundTripAtom_ok (v : AtomVal) (hwf : wfAtom v) (hnz : v ≠ .vflag 0) :
    roundTripAtom v = .ok v := by
  cases v with
  | vint n => rfl
  | vbool b => rfl
  | vstr s => rfl
  | vfraction n d =>
    obtain ⟨h0, hg⟩ := hwf
    by_cases hd1 : d = 1
    · subst hd1
      rfl
    · show Except.bind (configEncodeAtom (.vfraction n d))
        (configDecodeAtom .afraction) = .ok (.vfraction n d)
      unfold configEncodeAtom
      dsimp only
      rw [if_neg hd1]
      show (parseFraction (String.data
          ⟨intChars n ++ '/' :: natChars d.toNat⟩)).map
          (fun p => AtomVal.vfraction p.1 p.2) = .ok (.vfraction n d)
      rw [show String.data ⟨intChars n ++ '/' :: natChars d.toNat⟩ =
            intChars n ++ '/' :: natChars d.toNat from rfl,
          parseFraction_encodeStr n d h0 hg]
      rfl
  | vrange a b st =>
    by_cases h1 : st = 1
    · subst h1
      show Except.bind (configEncodeAtom (.vrange a b 1))
        (configDecodeAtom .arange) = .ok (.vrange a b 1)
      unfold configEncodeAtom
      dsimp only
      rw [if_pos rfl]
      show (parseRange (String.data ⟨intChars a ++ ':' :: intChars b⟩)).map
          (fun t => AtomVal.vrange t.1 t.2.1 t.2.2) = .ok (.vrange a b 1)
      rw [show String.data ⟨intChars a ++ ':' :: intChars b⟩ =
            intChars a ++ ':' :: intChars b from rfl,
          parseRange_encode2 a b]
      rfl
    · show Except.bind (configEncodeAtom (.vrange a b st))
        (configDecodeAtom .arange) = .ok (.vrange a b st)
      unfold configEncodeAtom
      dsimp only
      rw [if_neg h1]
      show (parseRange (String.data
          ⟨intChars a ++ ':' :: (intChars b ++ ':' :: intChars st)⟩)).map
          (fun t => AtomVal.vrange t.1 t.2.1 t.2.2) = .ok (.vrange a b st)
      rw [show String.data
            ⟨intChars a ++ ':' :: (intChars b ++ ':' :: intChars st)⟩ =
            intChars a ++ ':' :: (intChars b ++ ':' :: intChars st) from rfl,
          parseRange_encode3 a b st hwf]
      rfl
  | venum i =>
    have hi : i < 3 := hwf
    interval_cases i <;> rfl
  | vflag bits =>
    have hb : bits < 4 := hwf
    have hb0 : bits ≠ 0 := fun h => hnz (by rw [h])
    interval_cases bits <;> first
      | exact absurd rfl hb0
      | rfl

/-- C3 witness: the round-trip at a reduced fraction, a stepped range, a flag with
both bits set, and an enum member. -/
theorem roundTripAtom_ok_witness :
    roundTripAtom (.vfraction (-3) 4) = .ok (.vfraction (-3) 4) ∧
    roundTripAtom (.vrange 5 (-5) (-2)) = .ok (.vrange 5 (-5) (-2)) ∧
    roundTripAtom (.vflag 3) = .ok (.vflag 3) ∧
    roundTripAtom (.venum 2) = .ok (.venum 2) :=
  ⟨roundTripAtom_ok (.vfraction (-3) 4)
      (by show (0 : Int) < 4 ∧ Int.gcd (-3) 4 = 1; decide) (by decide),
   roundTripAtom_ok (.vrange 5 (-5) (-2))
      (by show (-2 : Int) ≠ 0; decide) (by decide),
   roundTripAtom_ok (.vflag 3)
      (by show (3 : Nat) < 2 ^ flagMembers.length; decide) (by decide),
   roundTripAtom_ok (.venum 2)
      (by show (2 : Nat) < enumMembers.length; decide) (by decide)⟩

end BourbakiApp
